import Mathlib

/-!
Shallow embedding of the `vqe-qubo-solver` package core:
`src/ansatz_options.py`, `src/qubo_solver_builder.py` and `src/qubo_solver.py`.

Numeric weights and optimizer parameter vectors are modelled over `Int`
(the verified properties depend only on the linear order of the values,
not on floating-point arithmetic).  The external collaborators
(scipy `minimize`, qiskit estimators, `QuadraticProgram`, `TwoLocal`)
are opaque services: we model exactly the data the orchestration layer
feeds them and the bookkeeping it performs around them.  Python
`print` diagnostics are modelled as an explicit list of emitted
messages, and Python truthiness tests are modelled explicitly.
-/

/-- Python `str | list[str]` union used for ansatz gate specifications. -/
abbrev StrOrList := Sum String (List String)

/-- `AnsatzOptions` dataclass from `src/ansatz_options.py`:
rotation gate spec, entanglement gate spec, entanglement topology, reps. -/
structure AnsatzOptions where
  rotation_blocks : StrOrList
  entanglement_blocks : StrOrList
  entanglement : String
  reps : Int
deriving DecidableEq, Repr

/-- The estimator collaborator, opaque apart from which kind was supplied:
the builder default is `StatevectorEstimator()`; any other estimator object
is `generic`. -/
inductive EstimatorKind where
  | statevector
  | generic
deriving DecidableEq, Repr

/-- The mutable `__cost_dict` of `QuboSolver`:
`{"prev_vector": None, "iters": 0, "assets_history": []}`. -/
structure CostDict where
  prev_vector : Option (List Int)
  iters : Nat
  assets_history : List (List Int)
deriving DecidableEq, Repr

/-- Configuration state stored by `QuboSolver.__init__`
(`src/qubo_solver.py`).  The derived Hamiltonian and `TwoLocal` circuit
are external artifacts; the fields below are the data the solver owns. -/
structure QuboSolver where
  linear_weights : List Int
  quadratic_weights : List (List Int)
  n_assets : Int
  problem_name : String
  constraint_sense : String
  estimator : EstimatorKind
  ansatz_options : AnsatzOptions
  cost_dict : CostDict
deriving DecidableEq

/-- `QuboSolver.__init__`: stores the problem data; `n_assets` defaults to
`len(linear_weights)` when the supplied value is falsy (`0`); the cost
dictionary starts as `{"prev_vector": None, "iters": 0, "assets_history": []}`. -/
def QuboSolver.init (linear_weights : List Int) (quadratic_weights : List (List Int))
    (n_assets : Int) (problem_name constraint_sense : String)
    (estimator : EstimatorKind) (ansatz_options : AnsatzOptions) : QuboSolver :=
  { linear_weights := linear_weights
    quadratic_weights := quadratic_weights
    n_assets := if n_assets ≠ 0 then n_assets else (linear_weights.length : Int)
    problem_name := problem_name
    constraint_sense := constraint_sense
    estimator := estimator
    ansatz_options := ansatz_options
    cost_dict := { prev_vector := none, iters := 0, assets_history := [] } }

/-- Builder state from `src/qubo_solver_builder.py` (`QuboSolverBuilder`). -/
structure QuboSolverBuilder where
  linear_weights : List Int
  quadratic_weights : List (List Int)
  n_assets : Int
  problem_name : String
  constraint_sense : String
  estimator : EstimatorKind
  ansatz : AnsatzOptions
deriving DecidableEq

/-- `QuboSolverBuilder.__init__`: `n_assets` is `int | None = None` and the
source stores `n_assets if n_assets else len(linear_weights)`, so both `None`
and `0` are falsy and fall back to the weight count. -/
def QuboSolverBuilder.init (linear_weights : List Int)
    (quadratic_weights : List (List Int)) (n_assets : Option Int) : QuboSolverBuilder :=
  { linear_weights := linear_weights
    quadratic_weights := quadratic_weights
    n_assets :=
      match n_assets with
      | some v => if v ≠ 0 then v else (linear_weights.length : Int)
      | none => (linear_weights.length : Int)
    problem_name := "QUBO Problem"
    constraint_sense := "EQ"
    estimator := EstimatorKind.statevector
    ansatz := ⟨Sum.inl "ry", Sum.inl "cz", "linear", 0⟩ }

/-- `QuboSolverBuilder.build`: hands the current configuration to
`QuboSolver.__init__`. -/
def QuboSolverBuilder.build (b : QuboSolverBuilder) : QuboSolver :=
  QuboSolver.init b.linear_weights b.quadratic_weights b.n_assets
    b.problem_name b.constraint_sense b.estimator b.ansatz

/-- `QuboSolverBuilder.set_problem`: sets the name when `problem_name` is
truthy (non-`None`, non-empty); then, when `constraint_sense` is truthy,
either rejects it with a printed diagnostic (second component) when it is
not in `["LE", "EQ", "GE"]`, or stores it.  The name assignment happens
before the sense validation. -/
def QuboSolverBuilder.set_problem (b : QuboSolverBuilder)
    (problem_name constraint_sense : Option String) : QuboSolverBuilder × List String :=
  let b1 :=
    match problem_name with
    | some s => if s.isEmpty then b else { b with problem_name := s }
    | none => b
  match constraint_sense with
  | some s =>
      if s.isEmpty then (b1, [])
      else if s ∈ ["LE", "EQ", "GE"] then ({ b1 with constraint_sense := s }, [])
      else (b1, ["Error! Invalid sense: " ++ s])
  | none => (b1, [])

/-- `QuboSolverBuilder.set_estimator`: replaces the estimator when a truthy
(non-`None`) value is supplied. -/
def QuboSolverBuilder.set_estimator (b : QuboSolverBuilder)
    (estimator : Option EstimatorKind) : QuboSolverBuilder :=
  match estimator with
  | some e => { b with estimator := e }
  | none => b

/-- The 6-value entanglement topology enumeration checked by `set_ansatz`. -/
def valid_entanglement : List String :=
  ["linear", "full", "reverse_linear", "pairwise", "circular", "sca"]

/-- `QuboSolverBuilder.set_ansatz`: each `None` argument falls back to its
default (`"ry"`, `"cz"`, `"linear"`, `0`); an entanglement value outside
`valid_entanglement` only triggers a printed diagnostic (second component)
and is stored anyway. -/
def QuboSolverBuilder.set_ansatz (b : QuboSolverBuilder)
    (rotation_blocks entanglement_blocks : Option StrOrList)
    (entanglement : Option String) (reps : Option Int) : QuboSolverBuilder × List String :=
  let rb := rotation_blocks.getD (Sum.inl "ry")
  let eb := entanglement_blocks.getD (Sum.inl "cz")
  let ent := entanglement.getD "linear"
  let diag :=
    if ent ∈ valid_entanglement then ([] : List String)
    else ["Error! Invalid entanglement strategy: " ++ ent]
  let rp := reps.getD 0
  ({ b with ansatz := ⟨rb, eb, ent, rp⟩ }, diag)

/-- Python truthiness of a string literal (non-empty strings are truthy). -/
def py_truthy_string (s : String) : Bool :=
  !s.isEmpty

/-- The quadratic coefficient dictionary built in `QuboSolver.__create_qubo`:
`{(idx[i], idx[j]): qw[i][j] for i in range(len(qw)) for j in range(i+1, len(qw))}`.
Keys are modelled as the index pairs themselves (the source uses their
decimal string forms, which is a bijective renaming). -/
def quadratic_weights_dict (quadratic_weights : List (List Int)) :
    List ((Nat × Nat) × Int) :=
  (List.range quadratic_weights.length).flatMap (fun i =>
    (List.range' (i + 1) (quadratic_weights.length - (i + 1))).map (fun j =>
      ((i, j), (quadratic_weights.getD i []).getD j 0)))

/-- The `QuadraticProgram` as configured by `QuboSolver.__create_qubo`
before it is handed to the external Ising transform: objective parts, the
cardinality constraint, and which converters were invoked.
`ineq_to_eq_applied` models the source branch
`if self.__constraint_sense == "LE" or "GE":` — Python `or` on a
non-empty string literal — and `penalty_applied` the unconditional
`LinearEqualityToPenalty().convert(qubo)` that follows. -/
structure QuadraticProgramModel where
  name : String
  linear : List Int
  quadratic : List ((Nat × Nat) × Int)
  sense : String
  rhs : Int
  ineq_to_eq_applied : Bool
  penalty_applied : Bool
deriving DecidableEq, Repr

/-- `QuboSolver.__create_qubo`. -/
def QuboSolver.create_qubo (s : QuboSolver) : QuadraticProgramModel :=
  { name := s.problem_name
    linear := s.linear_weights
    quadratic := quadratic_weights_dict s.quadratic_weights
    sense := s.constraint_sense
    rhs := s.n_assets
    ineq_to_eq_applied := (s.constraint_sense == "LE") || py_truthy_string "GE"
    penalty_applied := true }

/-- `np.argsort` over the value list, modelled as a comparison sort of the
index range keyed by the values (the verified property, the count of
selected indices, is independent of tie-breaking order). -/
def argsort (results : List Int) : List Nat :=
  List.insertionSort (fun i j => results.getD i 0 ≤ results.getD j 0)
    (List.range results.length)

/-- `QuboSolver.__process_results`: take the `n_assets` indices with the
smallest values and mark them `1` in an all-zero vector of the same length. -/
def process_results (n_assets : Nat) (results : List Int) : List Int :=
  let smallest_indices := (argsort results).take n_assets
  (List.range results.length).map (fun i => if i ∈ smallest_indices then 1 else 0)

/-- `count_dict[arr_tuple] += 1` on the association-list model: bump the
count of the entry whose key is `arr` (keys are unique, so at most one). -/
def bump_key (arr : List Int) (p : List Int × Nat) : List Int × Nat :=
  if p.1 = arr then (p.1, p.2 + 1) else p

/-- One iteration of the tallying loop in `QuboSolver.__count_results`:
bump the count when the tuple is already a key, otherwise insert it with
count 1. -/
def count_step (d : List (List Int × Nat)) (arr : List Int) : List (List Int × Nat) :=
  if arr ∈ d.map Prod.fst then d.map (bump_key arr)
  else d ++ [(arr, 1)]

/-- `QuboSolver.__count_results`: the result dictionary, modelled as an
insertion-ordered association list (Python dicts preserve insertion order
and have unique keys). -/
def count_results (results : List (List Int)) : List (List Int × Nat) :=
  results.foldl count_step []

/-- Keys of the modelled dictionary. -/
def dict_keys (d : List (List Int × Nat)) : List (List Int) :=
  d.map Prod.fst

/-- Sum of the occurrence counts of the modelled dictionary. -/
def dict_values_sum (d : List (List Int × Nat)) : Nat :=
  (d.map Prod.snd).sum

/-- The bookkeeping performed by `QuboSolver.__cost_func` on the shared
`cost_history_dict` at each objective evaluation.  The returned energy
comes from the external estimator and does not influence this state. -/
def cost_func (params : List Int) (cost_history_dict : CostDict) : CostDict :=
  { prev_vector := some params
    iters := cost_history_dict.iters + 1
    assets_history := cost_history_dict.assets_history ++ [params] }

/-- One restart of `run`: the external minimizer evaluates `__cost_func` at
some sequence of parameter vectors (`evals`, nondeterminism of scipy
`minimize` made explicit); each evaluation mutates the shared cost dict. -/
def run_restart (evals : List (List Int)) (d : CostDict) : CostDict :=
  evals.foldl (fun s p => cost_func p s) d

/-- All `shots` restarts of `run`, threading the single shared cost dict:
the source never resets it between restarts. -/
def run_all_restarts (restart_evals : List (List (List Int)))
    (d : CostDict) : CostDict :=
  restart_evals.foldl (fun s evals => run_restart evals s) d

/-- One loop iteration of `QuboSolver.run`: run the minimizer for this
restart (its cost-function evaluation sequence is `evals`), then read
`cost_dict["prev_vector"]` and binarize it with `__process_results`,
appending the candidate to the collected list.  The source reads
`prev_vector` unconditionally; it is `None` only if the minimizer
performed zero evaluations, which scipy never does. -/
def run_model_step (n_assets : Nat) (acc : List (List Int) × CostDict)
    (evals : List (List Int)) : List (List Int) × CostDict :=
  let d := run_restart evals acc.2
  (acc.1 ++ [process_results n_assets (d.prev_vector.getD [])], d)

/-- `QuboSolver.run`: fold `run_model_step` over all `shots` restarts
starting from the shared cost dict, then tally the collected per-restart
candidates with `__count_results`. -/
def run_model (n_assets : Nat) (d0 : CostDict)
    (restart_evals : List (List (List Int))) :
    List (List Int × Nat) × CostDict :=
  let rd := restart_evals.foldl (run_model_step n_assets) ([], d0)
  (count_results rd.1, rd.2)

/-- C2: the inequality-to-equality converter is applied even when the
constraint sense is `"EQ"` — the source branch
`if self.__constraint_sense == "LE" or "GE":` is always true because the
string literal `"GE"` is truthy — and so it is applied for every sense;
the linear-equality-to-penalty conversion is applied unconditionally
afterwards.  This refutes "not applied when the sense is EQ". -/
theorem create_qubo_ineq_conversion_always_applied :
    ((QuboSolver.init [1, 2] [[0, 1], [1, 0]] 1 "QUBO Problem" "EQ"
        EstimatorKind.statevector
        ⟨Sum.inl "ry", Sum.inl "cz", "linear", 0⟩).create_qubo.ineq_to_eq_applied
      = true) ∧
    (∀ s : QuboSolver,
      s.create_qubo.ineq_to_eq_applied = true ∧
      s.create_qubo.penalty_applied = true) := by
  refine ⟨rfl, fun s => ⟨?_, rfl⟩⟩
  simp [QuboSolver.create_qubo, py_truthy_string]
  exact Or.inr rfl

/-- C4: an invalid, non-empty constraint sense leaves the stored sense
unchanged and produces only a printed diagnostic; with `problem_name = None`
the builder state is entirely unchanged. -/
theorem set_problem_invalid_sense_keeps_state (b : QuboSolverBuilder)
    (pn : Option String) (cs : String)
    (h1 : cs ≠ "") (h2 : cs ∉ ["LE", "EQ", "GE"]) :
    ((b.set_problem pn (some cs)).1.constraint_sense = b.constraint_sense) ∧
    ((b.set_problem none (some cs)).1 = b) ∧
    ((b.set_problem none (some cs)).2 = ["Error! Invalid sense: " ++ cs]) := by
  refine ⟨?_, ?_, ?_⟩
  · cases pn with
    | none => simp [QuboSolverBuilder.set_problem, String.isEmpty_iff, h1, h2]
    | some s =>
        simp only [QuboSolverBuilder.set_problem, String.isEmpty_iff]
        simp [h1, h2]
        split <;> rfl
  · simp [QuboSolverBuilder.set_problem, String.isEmpty_iff, h1, h2]
  · simp [QuboSolverBuilder.set_problem, String.isEmpty_iff, h1, h2]

theorem set_problem_invalid_sense_keeps_state_witness :
    ((QuboSolverBuilder.init [1] [[0]] none).set_problem none (some "XX")).1 =
      QuboSolverBuilder.init [1] [[0]] none :=
  (set_problem_invalid_sense_keeps_state (QuboSolverBuilder.init [1] [[0]] none)
    none "XX" (by decide) (by decide)).2.1

/-- C5: an entanglement string outside the 6-value enumeration is still
stored in the resulting `AnsatzOptions`; only a diagnostic is emitted. -/
theorem set_ansatz_invalid_entanglement_stored (b : QuboSolverBuilder)
    (rb eb : Option StrOrList) (ent : String) (rp : Option Int)
    (h : ent ∉ valid_entanglement) :
    ((b.set_ansatz rb eb (some ent) rp).1.ansatz.entanglement = ent) ∧
    ((b.set_ansatz rb eb (some ent) rp).2 =
      ["Error! Invalid entanglement strategy: " ++ ent]) := by
  simp [QuboSolverBuilder.set_ansatz, h]

theorem set_ansatz_invalid_entanglement_stored_witness :
    ((QuboSolverBuilder.init [1] [[0]] none).set_ansatz none none
      (some "ladder") none).1.ansatz.entanglement = "ladder" :=
  (set_ansatz_invalid_entanglement_stored (QuboSolverBuilder.init [1] [[0]] none)
    none none "ladder" none (by decide)).1

/-- C6: a freshly constructed builder with no setters called builds a solver
with problem name "QUBO Problem", sense "EQ", a statevector estimator and
the default `AnsatzOptions ("ry", "cz", "linear", 0)`; `set_ansatz` with
all-`None` arguments stores those same defaults. -/
theorem builder_defaults (lw : List Int) (qw : List (List Int))
    (b : QuboSolverBuilder) :
    ((QuboSolverBuilder.init lw qw none).build.problem_name = "QUBO Problem") ∧
    ((QuboSolverBuilder.init lw qw none).build.constraint_sense = "EQ") ∧
    ((QuboSolverBuilder.init lw qw none).build.estimator
      = EstimatorKind.statevector) ∧
    ((QuboSolverBuilder.init lw qw none).build.ansatz_options
      = ⟨Sum.inl "ry", Sum.inl "cz", "linear", 0⟩) ∧
    ((b.set_ansatz none none none none).1.ansatz
      = ⟨Sum.inl "ry", Sum.inl "cz", "linear", 0⟩) :=
  ⟨rfl, rfl, rfl, rfl, rfl⟩

/-- C7: an omitted (`None`) or zero cardinality bound defaults to the number
of linear weights, in both the builder and the solver; a nonzero bound is
stored unchanged. -/
theorem n_assets_defaulting (lw : List Int) (qw : List (List Int)) (v : Int)
    (pn cs : String) (est : EstimatorKind) (ao : AnsatzOptions) (hv : v ≠ 0) :
    ((QuboSolverBuilder.init lw qw none).n_assets = lw.length) ∧
    ((QuboSolverBuilder.init lw qw (some 0)).n_assets = lw.length) ∧
    ((QuboSolverBuilder.init lw qw (some v)).n_assets = v) ∧
    ((QuboSolver.init lw qw 0 pn cs est ao).n_assets = lw.length) ∧
    ((QuboSolver.init lw qw v pn cs est ao).n_assets = v) := by
  exact ⟨rfl, by simp [QuboSolverBuilder.init],
    by simp [QuboSolverBuilder.init, hv],
    by simp [QuboSolver.init], by simp [QuboSolver.init, hv]⟩

theorem n_assets_defaulting_witness :
    (5 : Int) ≠ 0 ∧ (QuboSolverBuilder.init [3, 4] [[0]] (some 5)).n_assets = 5 :=
  ⟨by decide, (n_assets_defaulting [3, 4] [[0]] 5 "p" "EQ"
    EstimatorKind.statevector ⟨Sum.inl "ry", Sum.inl "cz", "linear", 0⟩
    (by decide)).2.2.1⟩

/-- C10: `set_problem` is not atomic on validation failure: with a non-empty
name and an invalid non-empty sense, the name IS updated while the sense
update is rejected, because the name is assigned before the sense check. -/
theorem set_problem_name_updated_on_invalid_sense (b : QuboSolverBuilder)
    (pn cs : String) (h0 : pn ≠ "") (h1 : cs ≠ "") (h2 : cs ∉ ["LE", "EQ", "GE"]) :
    ((b.set_problem (some pn) (some cs)).1.problem_name = pn) ∧
    ((b.set_problem (some pn) (some cs)).1.constraint_sense
      = b.constraint_sense) := by
  simp [QuboSolverBuilder.set_problem, String.isEmpty_iff, h0, h1, h2]

theorem set_problem_name_updated_witness :
    ((QuboSolverBuilder.init [1] [[0]] none).set_problem (some "Portfolio")
      (some "XX")).1.problem_name = "Portfolio" :=
  (set_problem_name_updated_on_invalid_sense
    (QuboSolverBuilder.init [1] [[0]] none) "Portfolio" "XX"
    (by decide) (by decide) (by decide)).1

theorem run_restart_spec (evals : List (List Int)) : ∀ d : CostDict,
    (run_restart evals d).iters = d.iters + evals.length ∧
    (run_restart evals d).assets_history = d.assets_history ++ evals ∧
    (run_restart evals d).prev_vector = evals.getLast?.or d.prev_vector := by
  induction evals with
  | nil => intro d; simp [run_restart]
  | cons p t ih =>
      intro d
      have h := ih (cost_func p d)
      have hc : run_restart (p :: t) d = run_restart t (cost_func p d) := rfl
      rw [hc]
      refine ⟨?_, ?_, ?_⟩
      · rw [h.1]; simp [cost_func]; omega
      · rw [h.2.1]; simp [cost_func]
      · rw [h.2.2]
        cases h' : t.getLast? <;>
          simp [cost_func, List.getLast?_cons, h', Option.or]

theorem run_all_eq_run_restart_flatten (re : List (List (List Int))) : ∀ d,
    run_all_restarts re d = run_restart re.flatten d := by
  induction re with
  | nil => intro d; rfl
  | cons e t ih =>
      intro d
      have hc : run_all_restarts (e :: t) d = run_all_restarts t (run_restart e d) := rfl
      rw [hc, ih, List.flatten_cons]
      simp [run_restart, List.foldl_append]

/-- C9: the shared cost-tracking dict starts as
`{"prev_vector": None, "iters": 0, "assets_history": []}` and is never
reset between restarts: each `__cost_func` evaluation increments the one
`iters` counter, overwrites `prev_vector` with the current parameters and
appends them to the one shared history; over a whole multi-restart run the
counter grows by the total number of evaluations (so it never decreases and
is never reset to 0), and the final history length equals that total. -/
theorem cost_state_shared_across_run :
    (∀ (p : List Int) (d : CostDict),
      (cost_func p d).iters = d.iters + 1 ∧
      (cost_func p d).prev_vector = some p ∧
      (cost_func p d).assets_history = d.assets_history ++ [p]) ∧
    (∀ (restart_evals : List (List (List Int))) (d : CostDict),
      (run_all_restarts restart_evals d).iters
        = d.iters + (restart_evals.map List.length).sum ∧
      d.iters ≤ (run_all_restarts restart_evals d).iters ∧
      (run_all_restarts restart_evals d).assets_history
        = d.assets_history ++ restart_evals.flatten ∧
      (run_all_restarts restart_evals d).assets_history.length
        = d.assets_history.length + (restart_evals.map List.length).sum) ∧
    (∀ lw qw nA pn cs est ao,
      (QuboSolver.init lw qw nA pn cs est ao).cost_dict = ⟨none, 0, []⟩) := by
  refine ⟨fun p d => ⟨rfl, rfl, rfl⟩, fun re d => ?_, fun _ _ _ _ _ _ _ => rfl⟩
  have h := run_restart_spec re.flatten d
  rw [run_all_eq_run_restart_flatten]
  refine ⟨?_, ?_, h.2.1, ?_⟩
  · rw [h.1, List.length_flatten]
  · rw [h.1]; omega
  · rw [h.2.1]; simp [List.length_flatten]

/-- C8: the quadratic coefficient dictionary has exactly one entry per
ordered pair `(i, j)` with `i < j` in the strict upper triangle of the
quadratic weight matrix, carrying `quadratic_weights[i][j]`; no diagonal
or lower-triangle entry appears, and the linear weights are passed to the
objective unchanged. -/
theorem quadratic_upper_triangle (s : QuboSolver) (i j : Nat) (v : Int) :
    ((((i, j), v) ∈ s.create_qubo.quadratic) ↔
      (i < j ∧ j < s.quadratic_weights.length ∧
        v = (s.quadratic_weights.getD i []).getD j 0)) ∧
    ((s.create_qubo.quadratic.map Prod.fst).Nodup) ∧
    (s.create_qubo.linear = s.linear_weights) := by
  refine ⟨?_, ?_, rfl⟩
  · simp only [QuboSolver.create_qubo, quadratic_weights_dict, List.mem_flatMap,
      List.mem_map, List.mem_range, List.mem_range'_1, Prod.mk.injEq]
    constructor
    · rintro ⟨a, ha, b, ⟨hb1, hb2⟩, ⟨⟨rfl, rfl⟩, rfl⟩⟩
      exact ⟨by omega, by omega, rfl⟩
    · rintro ⟨hij, hj, rfl⟩
      exact ⟨i, by omega, j, ⟨by omega, by omega⟩, ⟨⟨rfl, rfl⟩, rfl⟩⟩
  · have hq : s.create_qubo.quadratic = quadratic_weights_dict s.quadratic_weights := rfl
    rw [hq]
    unfold quadratic_weights_dict
    rw [List.map_flatMap]
    simp only [List.map_map]
    rw [List.nodup_flatMap]
    constructor
    · intro x _
      refine List.Nodup.map ?_ (List.nodup_range' ..)
      intro a b hab
      simpa using hab
    · have hlt := List.pairwise_lt_range s.quadratic_weights.length
      refine hlt.imp ?_
      intro a b hab
      intro x hxa hxb
      simp only [List.mem_map, Function.comp] at hxa hxb
      obtain ⟨j₁, _, hj₁⟩ := hxa
      obtain ⟨j₂, _, hj₂⟩ := hxb
      rw [← hj₁] at hj₂
      have hba : b = a := by
        have := congrArg Prod.fst hj₂
        simpa using this
      omega

theorem bump_key_fst (arr : List Int) (p : List Int × Nat) :
    (bump_key arr p).1 = p.1 := by
  unfold bump_key
  split <;> rfl

theorem map_bump_key_of_not_mem (arr : List Int) :
    ∀ d : List (List Int × Nat), arr ∉ dict_keys d → d.map (bump_key arr) = d := by
  intro d
  induction d with
  | nil => intro _; rfl
  | cons p t ih =>
      intro h
      simp only [dict_keys, List.map_cons, List.mem_cons] at h
      push_neg at h
      simp only [List.map_cons]
      rw [ih (by simpa [dict_keys] using h.2)]
      have hp : bump_key arr p = p := by
        unfold bump_key
        rw [if_neg (Ne.symm h.1)]
      rw [hp]

theorem sum_map_bump_key (arr : List Int) :
    ∀ d : List (List Int × Nat), (dict_keys d).Nodup → arr ∈ dict_keys d →
      dict_values_sum (d.map (bump_key arr)) = dict_values_sum d + 1 := by
  intro d
  induction d with
  | nil => intro _ h; simp [dict_keys] at h
  | cons p t ih =>
      intro hnd hmem
      simp only [dict_keys, List.map_cons, List.nodup_cons] at hnd
      simp only [dict_keys, List.map_cons, List.mem_cons] at hmem
      rcases hmem with hmem | hmem
      · have ht : t.map (bump_key arr) = t := by
          apply map_bump_key_of_not_mem
          simpa [dict_keys, hmem] using hnd.1
        have hp : bump_key arr p = (p.1, p.2 + 1) := by
          unfold bump_key
          rw [if_pos hmem.symm]
        simp [dict_values_sum, hp, ht]
        omega
      · have hp : bump_key arr p = p := by
          unfold bump_key
          have : p.1 ≠ arr := by
            intro he
            exact hnd.1 (by simpa [he] using hmem)
          rw [if_neg this]
        have ht := ih hnd.2 (by simpa [dict_keys] using hmem)
        simp only [dict_values_sum, List.map_cons, List.map_map] at ht ⊢
        simp only [List.sum_cons, hp]
        have hcomp : t.map (Prod.snd ∘ bump_key arr) = (t.map (bump_key arr)).map Prod.snd := by
          rw [List.map_map]
        omega

theorem count_step_keys (d : List (List Int × Nat)) (arr : List Int) :
    dict_keys (count_step d arr)
      = if arr ∈ dict_keys d then dict_keys d else dict_keys d ++ [arr] := by
  unfold count_step dict_keys
  split
  · rw [List.map_map]
    exact List.map_congr_left (fun p _ => bump_key_fst arr p)
  · simp [List.map_append]

theorem count_step_sum (d : List (List Int × Nat)) (arr : List Int)
    (h : (dict_keys d).Nodup) :
    dict_values_sum (count_step d arr) = dict_values_sum d + 1 := by
  unfold count_step
  by_cases hmem : arr ∈ d.map Prod.fst
  · rw [if_pos hmem]
    exact sum_map_bump_key arr d h hmem
  · rw [if_neg hmem]
    simp [dict_values_sum, List.map_append]

theorem count_step_nodup (d : List (List Int × Nat)) (arr : List Int)
    (h : (dict_keys d).Nodup) :
    (dict_keys (count_step d arr)).Nodup := by
  rw [count_step_keys]
  by_cases hmem : arr ∈ dict_keys d
  · rw [if_pos hmem]
    exact h
  · rw [if_neg hmem]
    rw [List.nodup_append]
    refine ⟨h, List.nodup_singleton arr, ?_⟩
    intro x hx hx'
    simp only [List.mem_singleton] at hx'
    rw [hx'] at hx
    exact hmem hx

theorem count_step_mem_keys (d : List (List Int × Nat)) (arr b : List Int) :
    b ∈ dict_keys (count_step d arr) ↔ b ∈ dict_keys d ∨ b = arr := by
  rw [count_step_keys]
  by_cases hmem : arr ∈ dict_keys d
  · rw [if_pos hmem]
    constructor
    · exact Or.inl
    · rintro (hb | rfl)
      · exact hb
      · exact hmem
  · rw [if_neg hmem]
    simp [List.mem_append]

theorem count_results_loop (r : List (List Int)) :
    ∀ d : List (List Int × Nat), (dict_keys d).Nodup →
      ((dict_keys (r.foldl count_step d)).Nodup ∧
       dict_values_sum (r.foldl count_step d) = dict_values_sum d + r.length ∧
       ∀ b, b ∈ dict_keys (r.foldl count_step d) ↔ b ∈ dict_keys d ∨ b ∈ r) := by
  induction r with
  | nil => intro d hd; simpa using hd
  | cons a t ih =>
      intro d hd
      have hstep : (a :: t).foldl count_step d = t.foldl count_step (count_step d a) := rfl
      have hd' := count_step_nodup d a hd
      have h := ih (count_step d a) hd'
      rw [hstep]
      refine ⟨h.1, ?_, ?_⟩
      · rw [h.2.1, count_step_sum d a hd]
        simp
        omega
      · intro b
        rw [h.2.2 b, count_step_mem_keys]
        simp [List.mem_cons]
        tauto

theorem run_model_collected_length (n_assets : Nat) (re : List (List (List Int))) :
    ∀ acc : List (List Int) × CostDict,
      ((re.foldl (run_model_step n_assets) acc).1).length = acc.1.length + re.length := by
  induction re with
  | nil => intro acc; simp
  | cons e t ih =>
      intro acc
      have hstep : (e :: t).foldl (run_model_step n_assets) acc
          = t.foldl (run_model_step n_assets) (run_model_step n_assets acc e) := rfl
      rw [hstep, ih]
      simp [run_model_step]
      omega

/-- C1: `__count_results` on the list of `shots` per-restart candidates
returns a dictionary with one entry per distinct tuple (keys are exactly
the distinct candidates, with no duplicate key) whose occurrence counts
sum exactly to `shots`; consequently the mapping returned by `run` over
`shots` restarts has counts summing to `shots`. -/
theorem count_results_sum_to_shots (shots : Nat) (r : List (List Int))
    (h : r.length = shots) :
    dict_values_sum (count_results r) = shots ∧
    (dict_keys (count_results r)).Nodup ∧
    (∀ b, b ∈ dict_keys (count_results r) ↔ b ∈ r) ∧
    (∀ (n_assets : Nat) (d0 : CostDict) (restart_evals : List (List (List Int))),
      restart_evals.length = shots →
      dict_values_sum (run_model n_assets d0 restart_evals).1 = shots) := by
  have hloop := count_results_loop r [] (by simp [dict_keys])
  have hsum : ∀ l : List (List Int), dict_values_sum (count_results l) = l.length := by
    intro l
    have := count_results_loop l [] (by simp [dict_keys])
    simpa [count_results, dict_values_sum] using this.2.1
  refine ⟨?_, hloop.1, ?_, ?_⟩
  · rw [← h]
    exact hsum r
  · intro b
    have hcr : count_results r = r.foldl count_step [] := rfl
    rw [hcr, hloop.2.2 b]
    simp [dict_keys]
  · intro n_assets d0 restart_evals hre
    unfold run_model
    rw [hsum, run_model_collected_length]
    simpa using hre

theorem count_results_sum_witness :
    dict_values_sum (count_results [[1, 0], [0, 1], [1, 0]]) = 3 ∧
    dict_values_sum (run_model 1 ⟨none, 0, []⟩ [[[5]], [[6]], [[7]]]).1 = 3 := by
  have h := count_results_sum_to_shots 3 [[1, 0], [0, 1], [1, 0]] rfl
  exact ⟨h.1, h.2.2.2 1 ⟨none, 0, []⟩ [[[5]], [[6]], [[7]]] rfl⟩

theorem argsort_perm_range (results : List Int) :
    (argsort results).Perm (List.range results.length) :=
  List.perm_insertionSort _ _

theorem argsort_nodup (results : List Int) : (argsort results).Nodup :=
  (argsort_perm_range results).nodup_iff.mpr (List.nodup_range _)

theorem argsort_length (results : List Int) :
    (argsort results).length = results.length := by
  rw [(argsort_perm_range results).length_eq, List.length_range]

/-- C3: when the value vector has length at least `n_assets`, the binary
vector produced by `__process_results` has exactly `n_assets` entries equal
to 1, and every entry is 0 or 1. -/
theorem process_results_cardinality (n_assets : Nat) (results : List Int)
    (h : n_assets ≤ results.length) :
    (process_results n_assets results).count 1 = n_assets ∧
    (∀ x ∈ process_results n_assets results, x = 0 ∨ x = 1) := by
  have hnodupS : ((argsort results).take n_assets).Nodup :=
    List.Nodup.sublist (List.take_sublist _ _) (argsort_nodup results)
  have hlenS : ((argsort results).take n_assets).length = n_assets := by
    rw [List.length_take, argsort_length]
    omega
  have hsub : ∀ a ∈ (argsort results).take n_assets, a ∈ List.range results.length :=
    fun a ha => (argsort_perm_range results).mem_iff.mp (List.mem_of_mem_take ha)
  constructor
  · unfold process_results
    rw [List.count_eq_countP, List.countP_map]
    rw [List.countP_congr
      (q := fun i => decide (i ∈ (argsort results).take n_assets)) ?_]
    · rw [List.countP_eq_length_filter]
      have hfn : (List.filter (fun a => decide (a ∈ (argsort results).take n_assets))
          (List.range results.length)).Nodup :=
        (List.nodup_range _).filter _
      have hfs : (List.filter (fun a => decide (a ∈ (argsort results).take n_assets))
          (List.range results.length)).toFinset
          = ((argsort results).take n_assets).toFinset := by
        ext a
        simp only [List.mem_toFinset, List.mem_filter, decide_eq_true_eq]
        exact ⟨fun hp => hp.2, fun hp => ⟨hsub a hp, hp⟩⟩
      have hperm := List.perm_of_nodup_nodup_toFinset_eq hfn hnodupS hfs
      rw [hperm.length_eq, hlenS]
    · intro i _
      by_cases hi : i ∈ (argsort results).take n_assets <;>
        simp [Function.comp, hi]
  · intro x hx
    unfold process_results at hx
    simp only [List.mem_map] at hx
    obtain ⟨i, _, hi⟩ := hx
    by_cases hmem : i ∈ (argsort results).take n_assets
    · right
      rw [← hi, if_pos hmem]
    · left
      rw [← hi, if_neg hmem]

theorem process_results_cardinality_witness :
    (process_results 1 [5, 2, 7]).count 1 = 1 :=
  (process_results_cardinality 1 [5, 2, 7] (by decide)).1
